import Mathlib

/-!
Verification of the Finger-snake repository's game-loop logic.

The repository contains two near-duplicate implementations of a
hand-tracked snake game:

* the "Siyu" variant (`GameCanvas.tsx`, `animate`): heading-based steering
  with a per-frame turn-rate clamp, toroidal screen wrapping, and no crash
  detection inside the loop;
* the "Finger Snake" variant (`SnakeGame`, `update`): direct motion toward
  a target point, hard play-field boundary, food- and self-collision
  detection.

The definitions below are a shallow embedding of that code: JavaScript
numbers are modelled as real numbers, `Math.random()` results and
`Date.now()` identifiers are passed in as explicit oracle parameters, and
the asynchronous commentary calls are modelled as total functions of the
remote call's result.
-/

namespace FingerSnake

/-- `{x, y}` point in screen-pixel space (`types.ts`). -/
structure Point where
  x : ℝ
  y : ℝ

/-- A snake segment: a point tagged with a creation-order id
(`SnakeSegment` in `types.ts`; ids come from the loop index or
`Date.now()`). -/
structure SnakeSeg where
  x : ℝ
  y : ℝ
  id : ℤ

/-- Position of a segment, forgetting the id. -/
def SnakeSeg.pos (s : SnakeSeg) : Point := ⟨s.x, s.y⟩

/-- `Math.hypot(p.x - q.x, p.y - q.y)`: Euclidean distance. -/
noncomputable def hypotDist (p q : Point) : ℝ :=
  Real.sqrt ((p.x - q.x) ^ 2 + (p.y - q.y) ^ 2)

/-- `TURN_SPEED = 0.15` radians per frame (`GameCanvas.tsx`). -/
noncomputable def TURN_SPEED : ℝ := 0.15

/-- `SNAKE_SPEED = 4` pixels per frame (`GameCanvas.tsx`). -/
noncomputable def SNAKE_SPEED : ℝ := 4

/-- `SPEED = 4` pixels per frame (`SnakeGame`). -/
noncomputable def SPEED : ℝ := 4

/-- `INITIAL_LENGTH = 10` (`GameCanvas.tsx`). -/
def INITIAL_LENGTH : ℕ := 10

/-- `INITIAL_SNAKE_LENGTH = 10` (`SnakeGame`). -/
def INITIAL_SNAKE_LENGTH : ℕ := 10

/-- `SEGMENT_SPACING = 10` pixels (`GameCanvas.tsx`). -/
noncomputable def SEGMENT_SPACING : ℝ := 10

/-- `FOOD_RADIUS = 12` (`GameCanvas.tsx`). -/
noncomputable def FOOD_RADIUS : ℝ := 12

/-- `HEAD_RADIUS = 15` (`GameCanvas.tsx`). -/
noncomputable def HEAD_RADIUS : ℝ := 15

/-- `SEGMENT_SIZE = 12` (radius, `SnakeGame`). -/
noncomputable def SEGMENT_SIZE : ℝ := 12

/-- `Math.sign` on real numbers. -/
noncomputable def mathSign (x : ℝ) : ℝ :=
  if x < 0 then -1 else if 0 < x then 1 else 0

/-! ### Steering controller (`GameCanvas.tsx`, lines 170-178)

```
let diff = targetAngle - directionRef.current;
while (diff < -Math.PI) diff += Math.PI * 2;
while (diff > Math.PI) diff -= Math.PI * 2;
if (Math.abs(diff) > TURN_SPEED) {
    directionRef.current += Math.sign(diff) * TURN_SPEED;
} else {
    directionRef.current = targetAngle;
}
```
-/

/-- The first normalization loop: `while (diff < -Math.PI) diff += Math.PI * 2`. -/
noncomputable def addTwoPi (d : ℝ) : ℝ :=
  if d < -Real.pi then addTwoPi (d + 2 * Real.pi) else d
termination_by Nat.ceil ((-Real.pi - d) / (2 * Real.pi))
decreasing_by
  rename_i h
  have hpi : (0 : ℝ) < 2 * Real.pi := by positivity
  have hx : 0 < (-Real.pi - d) / (2 * Real.pi) := by
    apply div_pos _ hpi
    linarith
  have hrw : (-Real.pi - (d + 2 * Real.pi)) / (2 * Real.pi)
      = (-Real.pi - d) / (2 * Real.pi) - 1 := by
    field_simp
    ring
  rw [hrw]
  set x : ℝ := (-Real.pi - d) / (2 * Real.pi)
  have h1 : 0 < Nat.ceil x := Nat.ceil_pos.mpr hx
  have h2 : Nat.ceil (x - 1) ≤ Nat.ceil x - 1 := by
    rw [Nat.ceil_le]
    have hcast : ((Nat.ceil x - 1 : ℕ) : ℝ) = (Nat.ceil x : ℝ) - 1 := by
      have : (1 : ℕ) ≤ Nat.ceil x := h1
      push_cast [this]
      ring
    rw [hcast]
    have := Nat.le_ceil x
    linarith
  omega

/-- The second normalization loop: `while (diff > Math.PI) diff -= Math.PI * 2`. -/
noncomputable def subTwoPi (d : ℝ) : ℝ :=
  if Real.pi < d then subTwoPi (d - 2 * Real.pi) else d
termination_by Nat.ceil ((d - Real.pi) / (2 * Real.pi))
decreasing_by
  rename_i h
  have hpi : (0 : ℝ) < 2 * Real.pi := by positivity
  have hx : 0 < (d - Real.pi) / (2 * Real.pi) := by
    apply div_pos _ hpi
    linarith
  have hrw : (d - 2 * Real.pi - Real.pi) / (2 * Real.pi)
      = (d - Real.pi) / (2 * Real.pi) - 1 := by
    field_simp
    ring
  rw [hrw]
  set x : ℝ := (d - Real.pi) / (2 * Real.pi)
  have h1 : 0 < Nat.ceil x := Nat.ceil_pos.mpr hx
  have h2 : Nat.ceil (x - 1) ≤ Nat.ceil x - 1 := by
    rw [Nat.ceil_le]
    have hcast : ((Nat.ceil x - 1 : ℕ) : ℝ) = (Nat.ceil x : ℝ) - 1 := by
      have : (1 : ℕ) ≤ Nat.ceil x := h1
      push_cast [this]
      ring
    rw [hcast]
    have := Nat.le_ceil x
    linarith
  omega

/-- The complete normalization performed by the two `while` loops. -/
noncomputable def angNorm (d : ℝ) : ℝ := subTwoPi (addTwoPi d)

theorem addTwoPi_lb (d : ℝ) : -Real.pi ≤ addTwoPi d := by
  induction d using addTwoPi.induct with
  | case1 d h ih =>
    rw [addTwoPi, if_pos h]
    exact ih
  | case2 d h =>
    rw [addTwoPi, if_neg h]
    linarith [not_lt.mp h]

theorem addTwoPi_shift (d : ℝ) : ∃ k : ℕ, addTwoPi d = d + 2 * Real.pi * k := by
  induction d using addTwoPi.induct with
  | case1 d h ih =>
    obtain ⟨k, hk⟩ := ih
    refine ⟨k + 1, ?_⟩
    rw [addTwoPi, if_pos h, hk]
    push_cast
    ring
  | case2 d h =>
    refine ⟨0, ?_⟩
    rw [addTwoPi, if_neg h]
    push_cast
    ring

theorem subTwoPi_ub (d : ℝ) : subTwoPi d ≤ Real.pi := by
  induction d using subTwoPi.induct with
  | case1 d h ih =>
    rw [subTwoPi, if_pos h]
    exact ih
  | case2 d h =>
    rw [subTwoPi, if_neg h]
    exact not_lt.mp h

theorem subTwoPi_lb (d : ℝ) (hd : -Real.pi ≤ d) : -Real.pi ≤ subTwoPi d := by
  induction d using subTwoPi.induct with
  | case1 d h ih =>
    rw [subTwoPi, if_pos h]
    apply ih
    have hpi : (0 : ℝ) < Real.pi := Real.pi_pos
    linarith
  | case2 d h =>
    rw [subTwoPi, if_neg h]
    exact hd

theorem subTwoPi_shift (d : ℝ) : ∃ k : ℕ, subTwoPi d = d - 2 * Real.pi * k := by
  induction d using subTwoPi.induct with
  | case1 d h ih =>
    obtain ⟨k, hk⟩ := ih
    refine ⟨k + 1, ?_⟩
    rw [subTwoPi, if_pos h, hk]
    push_cast
    ring
  | case2 d h =>
    refine ⟨0, ?_⟩
    rw [subTwoPi, if_neg h]
    push_cast
    ring

theorem angNorm_mem (d : ℝ) : angNorm d ∈ Set.Icc (-Real.pi) Real.pi :=
  ⟨subTwoPi_lb _ (addTwoPi_lb d), subTwoPi_ub _⟩

theorem angNorm_shift (d : ℝ) : ∃ k : ℤ, angNorm d = d + 2 * Real.pi * k := by
  obtain ⟨a, ha⟩ := addTwoPi_shift d
  obtain ⟨b, hb⟩ := subTwoPi_shift (addTwoPi d)
  refine ⟨(a : ℤ) - b, ?_⟩
  rw [angNorm, hb, ha]
  push_cast
  ring

theorem angNorm_eq_self (d : ℝ) (h1 : -Real.pi ≤ d) (h2 : d ≤ Real.pi) :
    angNorm d = d := by
  rw [angNorm, addTwoPi, if_neg (not_lt.mpr h1), subTwoPi, if_neg (not_lt.mpr h2)]

theorem angNorm_unique (d y : ℝ) (k : ℤ) (hdy : d = y + 2 * Real.pi * k)
    (h1 : -Real.pi < y) (h2 : y < Real.pi) : angNorm d = y := by
  obtain ⟨m, hm⟩ := angNorm_shift d
  obtain ⟨hlo, hhi⟩ := angNorm_mem d
  have hpi : (0 : ℝ) < Real.pi := Real.pi_pos
  have heq : angNorm d = y + 2 * Real.pi * ((k + m : ℤ) : ℝ) := by
    rw [hm, hdy]
    push_cast
    ring
  have hzero : k + m = 0 := by
    by_contra hne
    rcases lt_or_le (k + m) 0 with hneg | hposz
    · have hc : ((k + m : ℤ) : ℝ) ≤ -1 := by
        exact_mod_cast (by omega : k + m ≤ -1)
      have : angNorm d < -Real.pi := by
        rw [heq]
        nlinarith
      linarith
    · have hc : (1 : ℝ) ≤ ((k + m : ℤ) : ℝ) := by
        exact_mod_cast (by omega : 1 ≤ k + m)
      have : Real.pi < angNorm d := by
        rw [heq]
        nlinarith
      linarith
  rw [heq, hzero]
  norm_num

/-- One steering update: rate-limited turn of `direction` toward
`targetAngle` (`GameCanvas.tsx`, lines 170-178). -/
noncomputable def turnStep (direction targetAngle : ℝ) : ℝ :=
  if TURN_SPEED < |angNorm (targetAngle - direction)| then
    direction + mathSign (angNorm (targetAngle - direction)) * TURN_SPEED
  else
    targetAngle

theorem pi_gt_turn : TURN_SPEED < Real.pi := by
  rw [TURN_SPEED]
  linarith [Real.pi_gt_three]

/-- C1 counterexample: the loop normalization lands in `[-π, π]`, not
`(-π, π]`; a raw difference of exactly `-π` is kept as `-π`. -/
theorem turn_diff_not_Ioc :
    ¬ (∀ th phi : ℝ, angNorm (phi - th) ∈ Set.Ioc (-Real.pi) Real.pi) := by
  intro hall
  have h := hall Real.pi 0
  have he : angNorm (0 - Real.pi) = -Real.pi := by
    rw [show (0 : ℝ) - Real.pi = -Real.pi by ring]
    exact angNorm_eq_self _ le_rfl (by linarith [Real.pi_pos])
  rw [he] at h
  exact lt_irrefl _ h.1

/-- C1 (amended): for every heading `th` and desired angle `phi`, the code
normalizes the raw difference `phi - th` into `[-π, π]` (the value `-π` is
attainable and is not mapped to `π`); when the magnitude of the normalized
difference exceeds `TURN_SPEED` the heading advances by exactly
`TURN_SPEED` in its sign, otherwise the heading is set to `phi`; the
post-turn heading lies on the shorter arc between `th` and `phi` (angular
distances to both endpoints add up to the full normalized difference), it
moves by at most `TURN_SPEED`, and it never overshoots `phi`. -/
theorem turnStep_shorter_arc (th phi : ℝ) :
    angNorm (phi - th) ∈ Set.Icc (-Real.pi) Real.pi ∧
    turnStep th phi =
      (if TURN_SPEED < |angNorm (phi - th)| then
        th + mathSign (angNorm (phi - th)) * TURN_SPEED
      else phi) ∧
    |angNorm (turnStep th phi - th)| + |angNorm (phi - turnStep th phi)|
      = |angNorm (phi - th)| ∧
    |angNorm (turnStep th phi - th)| ≤ TURN_SPEED := by
  have hpi : (0 : ℝ) < Real.pi := Real.pi_pos
  have ht : (0 : ℝ) < TURN_SPEED := by rw [TURN_SPEED]; norm_num
  have htpi := pi_gt_turn
  obtain ⟨hlo, hhi⟩ := angNorm_mem (phi - th)
  obtain ⟨k, hk⟩ := angNorm_shift (phi - th)
  refine ⟨angNorm_mem _, rfl, ?_⟩
  by_cases hbig : TURN_SPEED < |angNorm (phi - th)|
  · -- clamp case: advance by exactly TURN_SPEED in the sign of the difference
    have hstep : turnStep th phi
        = th + mathSign (angNorm (phi - th)) * TURN_SPEED := by
      rw [turnStep, if_pos hbig]
    rcases lt_or_le (angNorm (phi - th)) 0 with hneg | hpos
    · -- negative difference: sign is -1
      have hsign : mathSign (angNorm (phi - th)) = -1 := by
        rw [mathSign, if_pos hneg]
      have habs : |angNorm (phi - th)| = -angNorm (phi - th) := abs_of_neg hneg
      rw [habs] at hbig
      have h1 : angNorm (turnStep th phi - th) = -TURN_SPEED := by
        rw [hstep, hsign]
        rw [show th + -1 * TURN_SPEED - th = -TURN_SPEED by ring]
        exact angNorm_eq_self _ (by linarith) (by linarith)
      have h2 : angNorm (phi - turnStep th phi)
          = angNorm (phi - th) + TURN_SPEED := by
        apply angNorm_unique _ _ (-k)
        · rw [hstep, hsign]
          push_cast
          linear_combination -hk
        · linarith
        · linarith
      rw [h1, h2]
      rw [habs, abs_of_neg (by linarith : -TURN_SPEED < (0:ℝ)),
        abs_of_nonpos (by linarith : angNorm (phi - th) + TURN_SPEED ≤ 0)]
      constructor
      · ring
      · rw [neg_neg]
    · -- positive difference: sign is +1
      have habs : |angNorm (phi - th)| = angNorm (phi - th) := abs_of_nonneg hpos
      rw [habs] at hbig
      have hsign : mathSign (angNorm (phi - th)) = 1 := by
        rw [mathSign, if_neg (not_lt.mpr hpos), if_pos (by linarith)]
      have h1 : angNorm (turnStep th phi - th) = TURN_SPEED := by
        rw [hstep, hsign]
        rw [show th + 1 * TURN_SPEED - th = TURN_SPEED by ring]
        exact angNorm_eq_self _ (by linarith) (by linarith)
      have h2 : angNorm (phi - turnStep th phi)
          = angNorm (phi - th) - TURN_SPEED := by
        apply angNorm_unique _ _ (-k)
        · rw [hstep, hsign]
          push_cast
          linear_combination -hk
        · linarith
        · linarith
      rw [h1, h2]
      rw [habs, abs_of_nonneg (by linarith : (0:ℝ) ≤ TURN_SPEED),
        abs_of_nonneg (by linarith : (0:ℝ) ≤ angNorm (phi - th) - TURN_SPEED)]
      exact ⟨by ring, le_rfl⟩
  · -- snap case: heading is set to phi exactly
    have hstep : turnStep th phi = phi := by
      rw [turnStep, if_neg hbig]
    have h2 : angNorm (phi - turnStep th phi) = 0 := by
      rw [hstep, sub_self]
      exact angNorm_eq_self 0 (by linarith) (by linarith)
    have h1 : angNorm (turnStep th phi - th) = angNorm (phi - th) := by
      rw [hstep]
    rw [h2, h1]
    refine ⟨by simp, not_lt.mp hbig⟩

/-- C1 witness: at heading 0 and desired angle 0 the normalized
difference is in `[-π, π]` and the turn moves by at most the turn rate. -/
theorem turnStep_shorter_arc_inst :
    angNorm (0 - 0) ∈ Set.Icc (-Real.pi) Real.pi
    ∧ |angNorm (turnStep 0 0 - 0)| ≤ TURN_SPEED :=
  ⟨(turnStep_shorter_arc 0 0).1, (turnStep_shorter_arc 0 0).2.2.2⟩

/-! ### Siyu variant: game state and one physics frame
(`GameCanvas.tsx`, `animate` lines 149-217, `initGame`, `spawnFood`) -/

/-- `GameState` enum of the Siyu variant (`types.ts`). -/
inductive SiyuPhase
  | LOADING
  | MENU
  | PLAYING
  | PAUSED
  | GAME_OVER
deriving DecidableEq, BEq, Fintype

/-- Mutable game refs of the Siyu variant: snake chain (head first),
heading angle, score, food point. -/
structure SiyuState where
  snake : List SnakeSeg
  direction : ℝ
  score : ℕ
  food : Point

/-- `spawnFood` (`GameCanvas.tsx`, lines 86-92): random point inset by
`padding = 50`; `r1`, `r2` are the two `Math.random()` draws. -/
noncomputable def spawnFood (w h r1 r2 : ℝ) : Point :=
  ⟨50 + r1 * (w - 50 * 2), 50 + r2 * (h - 50 * 2)⟩

/-- The initial chain built by `initGame` (`GameCanvas.tsx`, lines 71-78):
ten segments spaced `SEGMENT_SPACING` apart below the screen center. -/
noncomputable def initChainSiyu (cx cy : ℝ) : List SnakeSeg :=
  (List.range INITIAL_LENGTH).map fun (i : ℕ) =>
    { x := cx, y := cy + (i : ℝ) * SEGMENT_SPACING, id := (i : ℤ) }

/-- `initGame` (`GameCanvas.tsx`, lines 66-84): fresh chain at the screen
center, heading `-π/2` (facing up), score `0`, fresh random food. -/
noncomputable def initGame (w h r1 r2 : ℝ) : SiyuState :=
  ⟨initChainSiyu (w / 2) (h / 2), -(Real.pi / 2), 0, spawnFood w h r1 r2⟩

/-- Screen wrapping (`GameCanvas.tsx`, lines 187-191). The four `if`
statements mutate the coordinates in order. -/
noncomputable def wrapPoint (w h : ℝ) (p : Point) : Point :=
  let x1 := if p.x < 0 then w else p.x
  let x2 := if w < x1 then 0 else x1
  let y1 := if p.y < 0 then h else p.y
  let y2 := if h < y1 then 0 else y1
  ⟨x2, y2⟩

/-- One physics update of the Siyu variant (`animate`, lines 150-216),
taking the desired angle `targetAngle` (computed upstream from the hand
position or the random-wander policy), the two food-respawn randoms and
the fresh `Date.now()` id as oracle inputs.  The source indexes
`snake[0]`, so an empty chain (never produced by `initGame`) is returned
unchanged. -/
noncomputable def stepSiyu (w h : ℝ) (st : SiyuState) (targetAngle r1 r2 : ℝ)
    (nid : ℤ) : SiyuState :=
  match st.snake with
  | [] => st
  | head :: rest =>
    let dir : ℝ := turnStep st.direction targetAngle
    let nh : Point := wrapPoint w h
      ⟨head.x + Real.cos dir * SNAKE_SPEED, head.y + Real.sin dir * SNAKE_SPEED⟩
    let distToFood := hypotDist nh st.food
    let grew : Prop := distToFood < HEAD_RADIUS + FOOD_RADIUS
    let score : ℕ := if grew then st.score + 10 else st.score
    let food : Point := if grew then spawnFood w h r1 r2 else st.food
    let snake1 : List SnakeSeg := ⟨nh.x, nh.y, nid⟩ :: head :: rest
    let targetLength : ℕ := INITIAL_LENGTH + score / 10 * 2
    let neededHistory : ℕ :=
      Nat.ceil ((targetLength : ℝ) * (SEGMENT_SPACING / SNAKE_SPEED) * 1.5)
    let snake2 : List SnakeSeg :=
      if ¬ grew ∧ neededHistory < snake1.length then snake1.dropLast else snake1
    ⟨snake2, dir, score, food⟩

/-! ### Finger Snake variant: one `update` frame
(`SnakeGame`, `update` lines 489-557, `getRandomPosition`, `startGame`) -/

/-- Status of the Finger Snake variant (`GameState.status` in the unnamed
types file): `menu`, `playing` or `gameover`. -/
inductive FSStatus
  | menu
  | playing
  | gameover
deriving DecidableEq

/-- Outcome classification of one playing frame: nothing special
happened, food was eaten, or the snake crashed. -/
inductive FrameOutcome
  | noEvent
  | ate
  | crashed
deriving DecidableEq

/-- `getRandomPosition(width, height, margin)` (`SnakeGame`, lines
423-428); `r1`, `r2` are the two `Math.random()` draws. -/
noncomputable def getRandomPosition (w h margin r1 r2 : ℝ) : Point :=
  ⟨margin + r1 * (w - margin * 2), margin + r2 * (h - margin * 2)⟩

/-- Target resolution when playing (`update`, lines 494-501): the
mirrored finger position if detected, otherwise the retained target,
refreshed to a random wander point every 100th frame. -/
noncomputable def resolveTarget (finger : Option Point) (frameCount : ℕ)
    (prevTarget wander : Point) : Point :=
  match finger with
  | some f => f
  | none => if frameCount % 100 = 0 then wander else prevTarget

/-- The initial chain built by `startGame` (`SnakeGame`, lines 452-455):
ten segments spaced 5 px apart below the canvas center. -/
noncomputable def initChainFS (c : Point) : List SnakeSeg :=
  (List.range INITIAL_SNAKE_LENGTH).map fun (i : ℕ) =>
    { x := c.x, y := c.y + (i : ℝ) * 5, id := (i : ℤ) }

/-- `Math.sqrt(dx*dx + dy*dy)` from head to target (`update`, lines
505-507). -/
noncomputable def fsDist (head : SnakeSeg) (target : Point) : ℝ :=
  Real.sqrt ((target.x - head.x) * (target.x - head.x)
    + (target.y - head.y) * (target.y - head.y))

/-- The new head position (`update`, lines 511-515):
`head + (d / |d|) * SPEED`, tagged with the `Date.now()` id. -/
noncomputable def fsNewHead (head : SnakeSeg) (target : Point) (nid : ℤ) : SnakeSeg :=
  ⟨head.x + (target.x - head.x) / fsDist head target * SPEED,
   head.y + (target.y - head.y) / fsDist head target * SPEED, nid⟩

/-- Hard boundary test (`update`, line 537):
`newHead.x < 0 || newHead.x > canvas.width || newHead.y < 0 || newHead.y > canvas.height`. -/
def boundaryOut (w h : ℝ) (p : Point) : Prop :=
  p.x < 0 ∨ w < p.x ∨ p.y < 0 ∨ h < p.y

/-- Self-collision loop (`update`, lines 542-548): the new head is tested
against every element of the post-unshift chain from index 10 on. -/
def selfCollision (nh : SnakeSeg) (snake1 : List SnakeSeg) : Prop :=
  ∃ seg ∈ snake1.drop 10, hypotDist nh.pos seg.pos < SEGMENT_SIZE

open Classical

/-- Result of one Finger Snake playing frame. -/
structure FSResult where
  snake : List SnakeSeg
  food : Point
  score : ℕ
  status : FSStatus
  highScore : ℕ
  outcome : FrameOutcome

/-- One playing-frame logic update of the Finger Snake variant
(`update`, lines 490-557).  Inputs: canvas size, current chain (head
first), food, score, high score, the resolved target point, the two
food-respawn randoms and the fresh `Date.now()` id.  The source indexes
`snakeRef.current[0]`, so an empty chain (never produced by `startGame`)
is returned unchanged. -/
noncomputable def updateFrame (w h : ℝ) (snake : List SnakeSeg) (food : Point)
    (score highScore : ℕ) (target : Point) (r1 r2 : ℝ) (nid : ℤ) : FSResult :=
  match snake with
  | [] => ⟨snake, food, score, FSStatus.playing, highScore, FrameOutcome.noEvent⟩
  | head :: rest =>
    -- "Only move if not super close to target to avoid jitter"
    if 5 < fsDist head target then
      let nh := fsNewHead head target nid
      let snake1 := nh :: head :: rest
      if hypotDist nh.pos food < SEGMENT_SIZE * 2 then
        ⟨snake1, getRandomPosition w h 40 r1 r2, score + 1,
          FSStatus.playing, highScore, FrameOutcome.ate⟩
      else if boundaryOut w h nh.pos ∨ selfCollision nh snake1 then
        ⟨snake1, food, score, FSStatus.gameover,
          Nat.max score highScore, FrameOutcome.crashed⟩
      else
        ⟨snake1.dropLast, food, score, FSStatus.playing, highScore,
          FrameOutcome.noEvent⟩
    else
      ⟨snake, food, score, FSStatus.playing, highScore, FrameOutcome.noEvent⟩

/-! ### Shared helper lemmas -/

theorem sqrt_eval (a b : ℝ) (hb : 0 ≤ b) (h : a = b ^ 2) : Real.sqrt a = b := by
  rw [h]
  exact Real.sqrt_sq hb

theorem hypot_ge_abs_dx (p q : Point) : |p.x - q.x| ≤ hypotDist p q := by
  rw [hypotDist, ← Real.sqrt_sq_eq_abs]
  exact Real.sqrt_le_sqrt (by nlinarith [sq_nonneg (p.y - q.y)])

theorem hypot_ge_abs_dy (p q : Point) : |p.y - q.y| ≤ hypotDist p q := by
  rw [hypotDist, ← Real.sqrt_sq_eq_abs]
  exact Real.sqrt_le_sqrt (by nlinarith [sq_nonneg (p.x - q.x)])

theorem wrapPoint_id (w h : ℝ) (p : Point) (hx0 : 0 ≤ p.x) (hxw : p.x ≤ w)
    (hy0 : 0 ≤ p.y) (hyh : p.y ≤ h) : wrapPoint w h p = p := by
  rw [wrapPoint]
  simp only [if_neg (not_lt.mpr hx0), if_neg (not_lt.mpr hxw),
    if_neg (not_lt.mpr hy0), if_neg (not_lt.mpr hyh)]

theorem fsDist_sq (head : SnakeSeg) (target : Point) :
    fsDist head target ^ 2
      = (target.x - head.x) * (target.x - head.x)
        + (target.y - head.y) * (target.y - head.y) := by
  rw [fsDist]
  have h1 := mul_self_nonneg (target.x - head.x)
  have h2 := mul_self_nonneg (target.y - head.y)
  exact Real.sq_sqrt (by nlinarith)

/-- C2 counterexample: a playing frame of the Finger Snake variant with no
finger signal (the retained wander target is 3 px from the head) moves the
head by 0 px, not by `SPEED = 4` px: the update skips motion entirely when
the head is within 5 px of the target. -/
theorem updateFrame_stalls_near_target :
    (updateFrame 800 600 [⟨0, 0, 0⟩] ⟨400, 300⟩ 0 0
      (resolveTarget Option.none 7 ⟨3, 0⟩ ⟨0, 0⟩) 0 0 1).snake = [⟨0, 0, 0⟩]
    ∧ SPEED ≠ 0 := by
  have htar : resolveTarget Option.none 7 ⟨3, 0⟩ ⟨0, 0⟩ = ⟨3, 0⟩ := by
    rw [resolveTarget]
    norm_num
  have hd : fsDist ⟨0, 0, 0⟩ ⟨3, 0⟩ = 3 := by
    rw [fsDist]
    exact sqrt_eval _ _ (by norm_num) (by norm_num)
  constructor
  · rw [htar]
    simp only [updateFrame]
    rw [if_neg (by rw [hd]; norm_num)]
  · rw [SPEED]
    norm_num

/-- C2 (amended): in the Siyu variant every playing frame advances the
head by exactly `SNAKE_SPEED = 4` px in the post-turn heading direction,
whatever the pointer state (stated here for frames whose moved head stays
inside the play field, where no wrap fires).  In the Finger Snake variant
the head advances by exactly `SPEED = 4` px toward the target only when
the head is more than 5 px from the target; at 5 px or less the frame
leaves the chain untouched, so motion can stall even with no pointer
signal. -/
theorem head_advance_speed (w h tA r1 r2 : ℝ) (nid : ℤ) (head : SnakeSeg)
    (rest : List SnakeSeg) (dir : ℝ) (sc hs : ℕ) (food target : Point) :
    ((0 ≤ head.x + Real.cos (turnStep dir tA) * SNAKE_SPEED →
      head.x + Real.cos (turnStep dir tA) * SNAKE_SPEED ≤ w →
      0 ≤ head.y + Real.sin (turnStep dir tA) * SNAKE_SPEED →
      head.y + Real.sin (turnStep dir tA) * SNAKE_SPEED ≤ h →
      ∃ rest2, (stepSiyu w h ⟨head :: rest, dir, sc, food⟩ tA r1 r2 nid).snake
          = ({ x := head.x + Real.cos (turnStep dir tA) * SNAKE_SPEED,
               y := head.y + Real.sin (turnStep dir tA) * SNAKE_SPEED,
               id := nid } : SnakeSeg) :: rest2
        ∧ (Real.cos (turnStep dir tA) * SNAKE_SPEED) ^ 2
            + (Real.sin (turnStep dir tA) * SNAKE_SPEED) ^ 2 = SNAKE_SPEED ^ 2))
    ∧ (fsDist head target ≤ 5 →
        (updateFrame w h (head :: rest) food sc hs target r1 r2 nid).snake
          = head :: rest)
    ∧ (5 < fsDist head target →
        ∃ rest2, (updateFrame w h (head :: rest) food sc hs target r1 r2 nid).snake
            = fsNewHead head target nid :: rest2
          ∧ ((fsNewHead head target nid).x - head.x) ^ 2
              + ((fsNewHead head target nid).y - head.y) ^ 2 = SPEED ^ 2) := by
  refine ⟨?_, ?_, ?_⟩
  · intro hx0 hxw hy0 hyh
    simp only [stepSiyu]
    rw [wrapPoint_id w h _ hx0 hxw hy0 hyh]
    have hpyth : (Real.cos (turnStep dir tA) * SNAKE_SPEED) ^ 2
        + (Real.sin (turnStep dir tA) * SNAKE_SPEED) ^ 2 = SNAKE_SPEED ^ 2 := by
      nlinarith [Real.sin_sq_add_cos_sq (turnStep dir tA)]
    split_ifs with hg hc hc
    all_goals first
      | exact ⟨head :: rest, rfl, hpyth⟩
      | exact ⟨(head :: rest).dropLast, by rw [List.dropLast_cons₂], hpyth⟩
  · intro hle
    simp only [updateFrame]
    rw [if_neg (not_lt.mpr hle)]
  · intro hgt
    have hdpos : 0 < fsDist head target := by linarith
    have hdisp : ((fsNewHead head target nid).x - head.x) ^ 2
        + ((fsNewHead head target nid).y - head.y) ^ 2 = SPEED ^ 2 := by
      simp only [fsNewHead]
      have h2 := fsDist_sq head target
      have hne : fsDist head target ≠ 0 := ne_of_gt hdpos
      field_simp
      nlinarith [h2]
    simp only [updateFrame]
    rw [if_pos hgt]
    split_ifs with hfood hcrash
    · exact ⟨head :: rest, rfl, hdisp⟩
    · exact ⟨head :: rest, rfl, hdisp⟩
    · exact ⟨(head :: rest).dropLast, by simp [List.dropLast], hdisp⟩

/-- C2 witness: concrete frames.  Siyu: head `(100,100)`, heading `0`,
desired angle `0` (so the post-turn heading is `0`): the new head is
`(104,100)`, exactly 4 px ahead.  Finger Snake: same head with target
`(100,103)` (3 px away): the chain is unchanged; with target `(100,90)`
(10 px away): the head moves to `(100,96)`, 4 px toward the target. -/
theorem head_advance_speed_inst :
    ((stepSiyu 800 600 ⟨[⟨100, 100, 0⟩], 0, 0, ⟨400, 300⟩⟩ 0 0 0 1).snake).head?
      = some ⟨104, 100, 1⟩
    ∧ (updateFrame 800 600 [⟨100, 100, 0⟩] ⟨400, 300⟩ 0 0 ⟨100, 103⟩ 0 0 1).snake
      = [⟨100, 100, 0⟩]
    ∧ ((updateFrame 800 600 [⟨100, 100, 0⟩] ⟨400, 300⟩ 0 0 ⟨100, 90⟩ 0 0 1).snake).head?
      = some ⟨100, 96, 1⟩ := by
  have hpi := Real.pi_pos
  have ht0 : turnStep 0 0 = 0 := by
    have h0 : angNorm (0 - 0) = 0 := by
      rw [show (0 : ℝ) - 0 = 0 by ring]
      exact angNorm_eq_self 0 (by linarith) (by linarith)
    rw [turnStep, h0, abs_zero, if_neg (by rw [TURN_SPEED]; norm_num)]
  refine ⟨?_, ?_, ?_⟩
  · obtain ⟨rest2, hsnake, _⟩ :=
      (head_advance_speed 800 600 0 0 0 1 ⟨100, 100, 0⟩ [] 0 0 0
        ⟨400, 300⟩ ⟨0, 0⟩).1
      (by rw [ht0, Real.cos_zero, SNAKE_SPEED]; norm_num)
      (by rw [ht0, Real.cos_zero, SNAKE_SPEED]; norm_num)
      (by rw [ht0, Real.sin_zero, SNAKE_SPEED]; norm_num)
      (by rw [ht0, Real.sin_zero, SNAKE_SPEED]; norm_num)
    rw [ht0, Real.cos_zero, Real.sin_zero, SNAKE_SPEED] at hsnake
    norm_num at hsnake
    rw [hsnake]
    rfl
  · exact (head_advance_speed 800 600 0 0 0 1 ⟨100, 100, 0⟩ [] 0 0 0
      ⟨400, 300⟩ ⟨100, 103⟩).2.1
      (by rw [fsDist]
          norm_num
          rw [sqrt_eval _ 3 (by norm_num) (by norm_num)]
          norm_num)
  · have hd : fsDist (⟨100, 100, 0⟩ : SnakeSeg) ⟨100, 90⟩ = 10 := by
      rw [fsDist]
      exact sqrt_eval _ _ (by norm_num) (by norm_num)
    obtain ⟨rest2, hsnake, _⟩ :=
      (head_advance_speed 800 600 0 0 0 1 ⟨100, 100, 0⟩ [] 0 0 0
        ⟨400, 300⟩ ⟨100, 90⟩).2.2 (by rw [hd]; norm_num)
    have hnh : fsNewHead (⟨100, 100, 0⟩ : SnakeSeg) ⟨100, 90⟩ 1
        = ⟨100, 96, 1⟩ := by
      rw [fsNewHead, hd, SPEED]
      norm_num
    rw [hsnake, hnh]
    rfl

/-- C3: the self-collision check of the Finger Snake variant compares the
new head only against chain entries beyond the exclusion window of the
nearest `N = 10` entries of the post-unshift chain; any such older segment
within `SEGMENT_SIZE = 12` px of the new head makes the frame a crash; the
10 excluded entries never influence the result; and on the frame after
`startGame` (head within one `SPEED` step of the chain center) no
self-collision fires. -/
theorem selfCollision_window (w hh : ℝ) (nh head : SnakeSeg)
    (front rest2 rest3 : List SnakeSeg) (c food target : Point) (sc hs : ℕ)
    (r1 r2 : ℝ) (nid : ℤ) :
    (front.length = 10 →
      (selfCollision nh (front ++ rest2) ↔
        ∃ seg ∈ rest2, hypotDist nh.pos seg.pos < SEGMENT_SIZE))
    ∧ (∀ front2 : List SnakeSeg, front.length = 10 → front2.length = 10 →
        (selfCollision nh (front ++ rest2) ↔ selfCollision nh (front2 ++ rest2)))
    ∧ (5 < fsDist head target →
        ¬ hypotDist (fsNewHead head target nid).pos food < SEGMENT_SIZE * 2 →
        selfCollision (fsNewHead head target nid)
          (fsNewHead head target nid :: head :: rest3) →
        (updateFrame w hh (head :: rest3) food sc hs target r1 r2 nid).outcome
            = FrameOutcome.crashed
        ∧ (updateFrame w hh (head :: rest3) food sc hs target r1 r2 nid).status
            = FSStatus.gameover)
    ∧ (hypotDist nh.pos c ≤ SPEED → ¬ selfCollision nh (nh :: initChainFS c)) := by
  have hwin : ∀ fr : List SnakeSeg, fr.length = 10 →
      (selfCollision nh (fr ++ rest2) ↔
        ∃ seg ∈ rest2, hypotDist nh.pos seg.pos < SEGMENT_SIZE) := by
    intro fr hlen
    rw [selfCollision, ← hlen, List.drop_left]
  refine ⟨hwin front, ?_, ?_, ?_⟩
  · intro front2 h1 h2
    rw [hwin front h1, hwin front2 h2]
  · intro hd hnf hsc
    simp only [updateFrame]
    rw [if_pos hd, if_neg hnf, if_pos (Or.inr hsc)]
    exact ⟨rfl, rfl⟩
  · intro hclose hcol
    obtain ⟨seg, hmem, hlt⟩ := hcol
    have hdrop : (nh :: initChainFS c).drop 10
        = [{ x := c.x, y := c.y + ((9 : ℕ) : ℝ) * 5, id := ((9 : ℕ) : ℤ) }] := by
      rw [initChainFS, INITIAL_SNAKE_LENGTH]
      rfl
    rw [hdrop] at hmem
    simp only [List.mem_singleton] at hmem
    subst hmem
    rw [SEGMENT_SIZE] at hlt
    have hy1 : |nh.pos.y - c.y| ≤ SPEED :=
      le_trans (hypot_ge_abs_dy nh.pos c) hclose
    have hy2 := hypot_ge_abs_dy nh.pos
      (SnakeSeg.pos
        { x := c.x, y := c.y + ((9 : ℕ) : ℝ) * 5, id := ((9 : ℕ) : ℤ) })
    have h45 : ((9 : ℕ) : ℝ) * 5 = 45 := by norm_num
    rw [SPEED] at hy1
    obtain ⟨ha1l, ha1r⟩ := abs_le.mp hy1
    obtain ⟨ha2l, ha2r⟩ := abs_le.mp (hy2.trans (le_of_lt hlt))
    simp only [SnakeSeg.pos] at ha1l ha1r ha2l ha2r
    linarith

/-- C3 witness: the start-safety clause at the concrete chain of
`startGame` centered at the origin with the head one 4 px step up, and the
crash clause on a concrete 11-segment chain whose 11th entry coincides
with the new head. -/
theorem selfCollision_window_inst :
    ¬ selfCollision ⟨0, -4, 100⟩ (⟨0, -4, 100⟩ :: initChainFS ⟨0, 0⟩)
    ∧ (updateFrame 800 600
        [⟨0, 0, 0⟩, ⟨500, 500, 1⟩, ⟨500, 500, 2⟩, ⟨500, 500, 3⟩, ⟨500, 500, 4⟩,
         ⟨500, 500, 5⟩, ⟨500, 500, 6⟩, ⟨500, 500, 7⟩, ⟨500, 500, 8⟩, ⟨4, 0, 9⟩]
        ⟨400, 300⟩ 0 0 ⟨100, 0⟩ 0 0 99).outcome = FrameOutcome.crashed := by
  have hd100 : fsDist ⟨0, 0, 0⟩ ⟨100, 0⟩ = 100 := by
    rw [fsDist]
    exact sqrt_eval _ _ (by norm_num) (by norm_num)
  have hnh : fsNewHead ⟨0, 0, 0⟩ ⟨100, 0⟩ 99 = ⟨4, 0, 99⟩ := by
    rw [fsNewHead, hd100]
    simp only [SnakeSeg.mk.injEq, SPEED]
    norm_num
  constructor
  · refine (selfCollision_window 0 0 ⟨0, -4, 100⟩ ⟨0, 0, 0⟩ [] [] []
      ⟨0, 0⟩ ⟨0, 0⟩ ⟨0, 0⟩ 0 0 0 0 0).2.2.2 ?_
    have heval : hypotDist (SnakeSeg.pos ⟨0, -4, 100⟩) ⟨0, 0⟩ = 4 := by
      rw [hypotDist, SnakeSeg.pos]
      exact sqrt_eval _ _ (by norm_num) (by norm_num)
    rw [heval, SPEED]
  · have hout := (selfCollision_window 800 600 ⟨0, 0, 0⟩ ⟨0, 0, 0⟩ [] []
      [⟨500, 500, 1⟩, ⟨500, 500, 2⟩, ⟨500, 500, 3⟩, ⟨500, 500, 4⟩,
       ⟨500, 500, 5⟩, ⟨500, 500, 6⟩, ⟨500, 500, 7⟩, ⟨500, 500, 8⟩, ⟨4, 0, 9⟩]
      ⟨0, 0⟩ ⟨400, 300⟩ ⟨100, 0⟩ 0 0 0 0 99).2.2.1
      (by rw [hd100]; norm_num)
      (by
        rw [hnh, not_lt, SEGMENT_SIZE]
        have : hypotDist (SnakeSeg.pos ⟨4, 0, 99⟩) ⟨400, 300⟩
            = Real.sqrt 246816 := by
          rw [hypotDist, SnakeSeg.pos]
          norm_num
        rw [this]
        have h24 : (24 : ℝ) ≤ Real.sqrt 246816 := by
          rw [show (24 : ℝ) = Real.sqrt 576 by
            exact (sqrt_eval _ _ (by norm_num) (by norm_num)).symm]
          exact Real.sqrt_le_sqrt (by norm_num)
        linarith)
      (by
        rw [hnh]
        refine ⟨⟨4, 0, 9⟩, ?_, ?_⟩
        · show (⟨4, 0, 9⟩ : SnakeSeg) ∈ ([⟨4, 0, 9⟩] : List SnakeSeg)
          exact List.mem_singleton.mpr rfl
        · rw [hypotDist]
          simp only [SnakeSeg.pos]
          norm_num [Real.sqrt_zero, SEGMENT_SIZE])
    exact hout.1

/-- C4: under the hard-boundary policy of the Finger Snake variant, a
playing frame whose newly computed head exits the play-field rectangle
(`x < 0`, `x > w`, `y < 0` or `y > h`) transitions the status to
`gameover` on that very frame, provided the food lies inside its margin
box (which makes a simultaneous food collision geometrically impossible,
so the boundary branch is always reached). -/
theorem boundary_exit_gameover_same_frame (w h : ℝ) (head : SnakeSeg)
    (rest : List SnakeSeg) (food target : Point) (sc hs : ℕ) (r1 r2 : ℝ)
    (nid : ℤ)
    (hfx1 : 40 ≤ food.x) (hfx2 : food.x ≤ w - 40)
    (hfy1 : 40 ≤ food.y) (hfy2 : food.y ≤ h - 40)
    (hmove : 5 < fsDist head target)
    (hexit : boundaryOut w h (fsNewHead head target nid).pos) :
    (updateFrame w h (head :: rest) food sc hs target r1 r2 nid).status
      = FSStatus.gameover
    ∧ (updateFrame w h (head :: rest) food sc hs target r1 r2 nid).outcome
      = FrameOutcome.crashed := by
  have hnofood : ¬ hypotDist (fsNewHead head target nid).pos food
      < SEGMENT_SIZE * 2 := by
    rw [not_lt, SEGMENT_SIZE]
    have hdx := hypot_ge_abs_dx (fsNewHead head target nid).pos food
    have hdy := hypot_ge_abs_dy (fsNewHead head target nid).pos food
    rcases hexit with hx | hx | hy | hy
    · have h1 : (40 : ℝ)
          < |(fsNewHead head target nid).pos.x - food.x| := by
        rw [abs_sub_comm]
        calc (40 : ℝ) < food.x - (fsNewHead head target nid).pos.x := by linarith
        _ ≤ |food.x - (fsNewHead head target nid).pos.x| := le_abs_self _
      linarith
    · have h1 : (40 : ℝ)
          < |(fsNewHead head target nid).pos.x - food.x| := by
        calc (40 : ℝ) < (fsNewHead head target nid).pos.x - food.x := by linarith
        _ ≤ |(fsNewHead head target nid).pos.x - food.x| := le_abs_self _
      linarith
    · have h1 : (40 : ℝ)
          < |(fsNewHead head target nid).pos.y - food.y| := by
        rw [abs_sub_comm]
        calc (40 : ℝ) < food.y - (fsNewHead head target nid).pos.y := by linarith
        _ ≤ |food.y - (fsNewHead head target nid).pos.y| := le_abs_self _
      linarith
    · have h1 : (40 : ℝ)
          < |(fsNewHead head target nid).pos.y - food.y| := by
        calc (40 : ℝ) < (fsNewHead head target nid).pos.y - food.y := by linarith
        _ ≤ |(fsNewHead head target nid).pos.y - food.y| := le_abs_self _
      linarith
  simp only [updateFrame]
  rw [if_pos hmove, if_neg hnofood, if_pos (Or.inl hexit)]
  exact ⟨rfl, rfl⟩

/-- C4 witness: head at `(2,100)` heading for target `(-100,100)` steps to
`(-2,100)`, past the left edge of an 800 by 800 field with food at
`(400,400)`: the status of that same frame is `gameover`. -/
theorem boundary_exit_gameover_inst :
    (updateFrame 800 800 [⟨2, 100, 0⟩] ⟨400, 400⟩ 0 0 ⟨-100, 100⟩ 0 0 7).status
      = FSStatus.gameover := by
  have hd : fsDist ⟨2, 100, 0⟩ ⟨-100, 100⟩ = 102 := by
    rw [fsDist]
    exact sqrt_eval _ _ (by norm_num) (by norm_num)
  have hnh : fsNewHead ⟨2, 100, 0⟩ ⟨-100, 100⟩ 7 = ⟨-2, 100, 7⟩ := by
    rw [fsNewHead, hd]
    simp only [SnakeSeg.mk.injEq, SPEED]
    norm_num
  refine (boundary_exit_gameover_same_frame 800 800 ⟨2, 100, 0⟩ []
    ⟨400, 400⟩ ⟨-100, 100⟩ 0 0 0 0 7
    (by norm_num) (by norm_num) (by norm_num) (by norm_num)
    (by rw [hd]; norm_num) ?_).1
  rw [hnh, boundaryOut]
  left
  simp only [SnakeSeg.pos]
  norm_num

/-- C5: eating food.  In the Finger Snake variant, a moving playing frame
whose new head is within the food threshold increments the score by
exactly 1, relocates the food to the fresh random margin position, and
keeps the whole chain plus the new head (no tail trim, net growth of one
history entry).  In the Siyu variant the same event adds exactly 10 to the
score, respawns the food, keeps the heading update, and skips trimming.
Both respawn helpers place the food inside `[margin, dimension - margin]`
on both axes whenever the random draws are in `[0,1)` and the field is at
least two margins wide. -/
theorem eat_food_effects (w h : ℝ) (head : SnakeSeg) (rest : List SnakeSeg)
    (food target : Point) (sc hs : ℕ) (dir tA r1 r2 : ℝ) (nid : ℤ) :
    (5 < fsDist head target →
      hypotDist (fsNewHead head target nid).pos food < SEGMENT_SIZE * 2 →
      (updateFrame w h (head :: rest) food sc hs target r1 r2 nid)
        = ⟨fsNewHead head target nid :: head :: rest,
           getRandomPosition w h 40 r1 r2, sc + 1, FSStatus.playing, hs,
           FrameOutcome.ate⟩)
    ∧ (0 ≤ r1 → r1 < 1 → 0 ≤ r2 → r2 < 1 → 80 ≤ w → 80 ≤ h →
        (40 ≤ (getRandomPosition w h 40 r1 r2).x
          ∧ (getRandomPosition w h 40 r1 r2).x ≤ w - 40
          ∧ 40 ≤ (getRandomPosition w h 40 r1 r2).y
          ∧ (getRandomPosition w h 40 r1 r2).y ≤ h - 40))
    ∧ (hypotDist
          (wrapPoint w h
            ⟨head.x + Real.cos (turnStep dir tA) * SNAKE_SPEED,
             head.y + Real.sin (turnStep dir tA) * SNAKE_SPEED⟩) food
          < HEAD_RADIUS + FOOD_RADIUS →
        stepSiyu w h ⟨head :: rest, dir, sc, food⟩ tA r1 r2 nid
          = ⟨{ x := (wrapPoint w h
                  ⟨head.x + Real.cos (turnStep dir tA) * SNAKE_SPEED,
                   head.y + Real.sin (turnStep dir tA) * SNAKE_SPEED⟩).x,
               y := (wrapPoint w h
                  ⟨head.x + Real.cos (turnStep dir tA) * SNAKE_SPEED,
                   head.y + Real.sin (turnStep dir tA) * SNAKE_SPEED⟩).y,
               id := nid } :: head :: rest,
             turnStep dir tA, sc + 10, spawnFood w h r1 r2⟩)
    ∧ (0 ≤ r1 → r1 < 1 → 0 ≤ r2 → r2 < 1 → 100 ≤ w → 100 ≤ h →
        (50 ≤ (spawnFood w h r1 r2).x ∧ (spawnFood w h r1 r2).x ≤ w - 50
          ∧ 50 ≤ (spawnFood w h r1 r2).y
          ∧ (spawnFood w h r1 r2).y ≤ h - 50)) := by
  refine ⟨?_, ?_, ?_, ?_⟩
  · intro hmove hfood
    simp only [updateFrame]
    rw [if_pos hmove, if_pos hfood]
  · intro h1 h2 h3 h4 hw hh
    simp only [getRandomPosition]
    have e1 : r1 * (w - 40 * 2) ≤ w - 40 * 2 :=
      mul_le_of_le_one_left (by linarith) (le_of_lt h2)
    have e2 : r2 * (h - 40 * 2) ≤ h - 40 * 2 :=
      mul_le_of_le_one_left (by linarith) (le_of_lt h4)
    have e3 : 0 ≤ r1 * (w - 40 * 2) := mul_nonneg h1 (by linarith)
    have e4 : 0 ≤ r2 * (h - 40 * 2) := mul_nonneg h3 (by linarith)
    refine ⟨by linarith, by linarith, by linarith, by linarith⟩
  · intro hfood
    simp only [stepSiyu]
    rw [if_pos hfood, if_pos hfood,
      if_neg (fun hcontra => hcontra.1 hfood)]
  · intro h1 h2 h3 h4 hw hh
    simp only [spawnFood]
    have e1 : r1 * (w - 50 * 2) ≤ w - 50 * 2 :=
      mul_le_of_le_one_left (by linarith) (le_of_lt h2)
    have e2 : r2 * (h - 50 * 2) ≤ h - 50 * 2 :=
      mul_le_of_le_one_left (by linarith) (le_of_lt h4)
    have e3 : 0 ≤ r1 * (w - 50 * 2) := mul_nonneg h1 (by linarith)
    have e4 : 0 ≤ r2 * (h - 50 * 2) := mul_nonneg h3 (by linarith)
    refine ⟨by linarith, by linarith, by linarith, by linarith⟩

/-- Evaluation helper shared by witnesses: with heading 0 and desired
angle 0 the steering controller keeps the heading at 0. -/
theorem turnStep_zero : turnStep 0 0 = 0 := by
  have hpi := Real.pi_pos
  have h0 : angNorm (0 - 0) = 0 := by
    rw [show (0 : ℝ) - 0 = 0 by ring]
    exact angNorm_eq_self 0 (by linarith) (by linarith)
  rw [turnStep, h0, abs_zero, if_neg (by rw [TURN_SPEED]; norm_num)]

/-- C5 witness: Finger Snake head `(100,100)` moving toward `(200,100)`
lands on `(104,100)`, 20 px from the food at `(104,120)`: score goes 0 to
1, outcome `ate`, chain grows to two entries, and the respawned food with
random draws `1/2` sits inside the margins.  Siyu: same geometry with
heading 0 gives score 0 to 10. -/
theorem eat_food_effects_inst :
    (updateFrame 800 600 [⟨100, 100, 0⟩] ⟨104, 120⟩ 0 0 ⟨200, 100⟩
        (1/2) (1/2) 1).score = 1
    ∧ (updateFrame 800 600 [⟨100, 100, 0⟩] ⟨104, 120⟩ 0 0 ⟨200, 100⟩
        (1/2) (1/2) 1).outcome = FrameOutcome.ate
    ∧ (updateFrame 800 600 [⟨100, 100, 0⟩] ⟨104, 120⟩ 0 0 ⟨200, 100⟩
        (1/2) (1/2) 1).snake.length = 2
    ∧ 40 ≤ (getRandomPosition 800 600 40 (1/2) (1/2)).x
    ∧ (stepSiyu 800 600 ⟨[⟨100, 100, 0⟩], 0, 0, ⟨104, 120⟩⟩ 0
        (1/2) (1/2) 1).score = 10 := by
  have hd : fsDist ⟨100, 100, 0⟩ ⟨200, 100⟩ = 100 := by
    rw [fsDist]
    exact sqrt_eval _ _ (by norm_num) (by norm_num)
  have hnh : fsNewHead ⟨100, 100, 0⟩ ⟨200, 100⟩ 1 = ⟨104, 100, 1⟩ := by
    rw [fsNewHead, hd]
    simp only [SnakeSeg.mk.injEq, SPEED]
    norm_num
  have hfs := (eat_food_effects 800 600 ⟨100, 100, 0⟩ [] ⟨104, 120⟩
    ⟨200, 100⟩ 0 0 0 0 (1/2) (1/2) 1).1
    (by rw [hd]; norm_num)
    (by
      rw [hnh, SEGMENT_SIZE]
      have heval : hypotDist (SnakeSeg.pos ⟨104, 100, 1⟩) ⟨104, 120⟩ = 20 := by
        rw [hypotDist]
        simp only [SnakeSeg.pos]
        exact sqrt_eval _ _ (by norm_num) (by norm_num)
      rw [heval]
      norm_num)
  have hmargin := (eat_food_effects 800 600 ⟨100, 100, 0⟩ [] ⟨104, 120⟩
    ⟨200, 100⟩ 0 0 0 0 (1/2) (1/2) 1).2.1
    (by norm_num) (by norm_num) (by norm_num) (by norm_num)
    (by norm_num) (by norm_num)
  have hmv : (⟨100 + Real.cos (turnStep 0 0) * SNAKE_SPEED,
      100 + Real.sin (turnStep 0 0) * SNAKE_SPEED⟩ : Point)
      = ⟨104, 100⟩ := by
    rw [turnStep_zero, Real.cos_zero, Real.sin_zero, SNAKE_SPEED]
    norm_num
  have hsiyu := (eat_food_effects 800 600 ⟨100, 100, 0⟩ [] ⟨104, 120⟩
    ⟨200, 100⟩ 0 0 0 0 (1/2) (1/2) 1).2.2.1
    (by
      rw [hmv, wrapPoint_id 800 600 ⟨104, 100⟩ (by norm_num) (by norm_num)
        (by norm_num) (by norm_num)]
      have heval : hypotDist (⟨104, 100⟩ : Point) ⟨104, 120⟩ = 20 := by
        rw [hypotDist]
        exact sqrt_eval _ _ (by norm_num) (by norm_num)
      rw [heval, HEAD_RADIUS, FOOD_RADIUS]
      norm_num)
  refine ⟨?_, ?_, ?_, hmargin.1, ?_⟩
  · rw [hfs]
  · rw [hfs]
  · rw [hfs]
    rfl
  · rw [hsiyu]

/-! ### Render pass segment counting (`GameCanvas.tsx`, lines 230-256) -/

/-- The rendered segment-count target
`INITIAL_LENGTH + Math.floor(score / 10) * 2` (`animate`, lines 207 and
234). -/
def targetLength (score : ℕ) : ℕ := INITIAL_LENGTH + score / 10 * 2

/-- The render loop over consecutive chain samples (`animate`, lines
236-256): accumulate travelled distance; a segment is drawn (and the
accumulator reset) only when the accumulated distance reaches
`SEGMENT_SPACING` and fewer than `target` segments have been drawn.
Returns the number of segments drawn. -/
noncomputable def drawLoop : List SnakeSeg → ℝ → ℕ → ℕ → ℕ
  | p1 :: p2 :: rest, acc, drawn, target =>
    if SEGMENT_SPACING ≤ acc + hypotDist p1.pos p2.pos ∧ drawn < target then
      drawLoop (p2 :: rest) 0 (drawn + 1) target
    else
      drawLoop (p2 :: rest) (acc + hypotDist p1.pos p2.pos) drawn target
  | _, _, drawn, _ => drawn

theorem drawLoop_le (l : List SnakeSeg) :
    ∀ acc drawn target, drawn ≤ target → drawLoop l acc drawn target ≤ target := by
  induction l with
  | nil =>
    intro acc drawn target hd
    simpa [drawLoop] using hd
  | cons p1 tl ih =>
    intro acc drawn target hd
    cases tl with
    | nil => simpa [drawLoop] using hd
    | cons p2 rest =>
      simp only [drawLoop]
      split_ifs with hc
      · exact ih _ _ _ (by omega)
      · exact ih _ _ _ hd

/-- C6: the rendered chain segment-count target is
`base + floor(score / unit) * growth = 10 + floor(s / 10) * 2`, a
deterministic, non-decreasing function of the score, and the render loop
never draws more segments than this target. -/
theorem segment_target_monotone_bound (s s2 : ℕ) (snake : List SnakeSeg) :
    targetLength s = 10 + s / 10 * 2
    ∧ (s ≤ s2 → targetLength s ≤ targetLength s2)
    ∧ drawLoop snake 0 0 (targetLength s) ≤ targetLength s := by
  refine ⟨rfl, ?_, drawLoop_le snake 0 0 _ (Nat.zero_le _)⟩
  intro hle
  have hdiv : s / 10 ≤ s2 / 10 := Nat.div_le_div_right hle
  rw [targetLength, targetLength, INITIAL_LENGTH]
  omega

/-- C6 witness: at scores 5 and 25 the target lengths are 10 and 14, the
target is monotone across them, and the loop on a two-sample chain stays
within the target. -/
theorem segment_target_inst :
    targetLength 25 = 14 ∧ targetLength 5 ≤ targetLength 25
    ∧ drawLoop [⟨0, 0, 0⟩, ⟨0, 20, 1⟩] 0 0 (targetLength 5) ≤ targetLength 5 := by
  obtain ⟨h1, h2, h3⟩ :=
    segment_target_monotone_bound 5 25 [⟨0, 0, 0⟩, ⟨0, 20, 1⟩]
  obtain ⟨h4, -, -⟩ :=
    segment_target_monotone_bound 25 25 ([] : List SnakeSeg)
  refine ⟨?_, h2 (by norm_num), h3⟩
  rw [h4]

/-! ### Game lifecycle (`GameCanvas.tsx`, lines 301-317) -/

/-- The `prevGameState` effect (`GameCanvas.tsx`, lines 305-317): the game
state is reinitialized exactly when the phase is `PLAYING` and the
previous phase was `MENU` or `GAME_OVER`. -/
def initsOnTransition (prev cur : SiyuPhase) : Bool :=
  (cur == SiyuPhase.PLAYING)
    && ((prev == SiyuPhase.MENU) || (prev == SiyuPhase.GAME_OVER))

/-- C7: the chain, heading, score and food are reinitialized exactly once
per transition into `PLAYING` from `MENU` or `GAME_OVER` — never when
resuming from `PAUSED` — and `initGame` resets all four pieces of state
(fresh 10-segment chain at the screen center, heading `-π/2`, score 0,
fresh random food). -/
theorem init_once_per_entry_to_playing (w h r1 r2 : ℝ) :
    (∀ prev cur : SiyuPhase, initsOnTransition prev cur = true ↔
      (cur = SiyuPhase.PLAYING
        ∧ (prev = SiyuPhase.MENU ∨ prev = SiyuPhase.GAME_OVER)))
    ∧ initsOnTransition SiyuPhase.PAUSED SiyuPhase.PLAYING = false
    ∧ (initGame w h r1 r2).score = 0
    ∧ (initGame w h r1 r2).direction = -(Real.pi / 2)
    ∧ (initGame w h r1 r2).snake = initChainSiyu (w / 2) (h / 2)
    ∧ (initGame w h r1 r2).snake.length = INITIAL_LENGTH
    ∧ (initGame w h r1 r2).food = spawnFood w h r1 r2 := by
  refine ⟨by decide, by decide, rfl, rfl, rfl, ?_, rfl⟩
  simp only [initGame, initChainSiyu, List.length_map, List.length_range]

/-- C7 witness: the MENU to PLAYING transition reinitializes, and a fresh
game on an 800 by 600 field starts at score 0 with a 10-segment chain. -/
theorem init_once_per_entry_inst :
    initsOnTransition SiyuPhase.MENU SiyuPhase.PLAYING = true
    ∧ initsOnTransition SiyuPhase.PAUSED SiyuPhase.PLAYING = false
    ∧ (initGame 800 600 0 0).score = 0
    ∧ (initGame 800 600 0 0).snake.length = INITIAL_LENGTH := by
  have hthm := init_once_per_entry_to_playing 800 600 0 0
  exact ⟨(hthm.1 SiyuPhase.MENU SiyuPhase.PLAYING).mpr ⟨rfl, Or.inl rfl⟩,
    hthm.2.1, hthm.2.2.1, hthm.2.2.2.2.2.1⟩

/-- C8: every moving playing frame of the Finger Snake variant resolves
to exactly one of the three outcomes; `ate` holds exactly when the frame
moved and the new head is within the food threshold, `crashed` exactly
when it moved, did not eat, and hit the boundary or its own tail; `ate`
and `crashed` never hold together. -/
theorem frame_outcome_trichotomy (w h : ℝ) (head : SnakeSeg)
    (rest : List SnakeSeg) (food target : Point) (sc hs : ℕ) (r1 r2 : ℝ)
    (nid : ℤ) :
    ((updateFrame w h (head :: rest) food sc hs target r1 r2 nid).outcome
        = FrameOutcome.noEvent
      ∨ (updateFrame w h (head :: rest) food sc hs target r1 r2 nid).outcome
        = FrameOutcome.ate
      ∨ (updateFrame w h (head :: rest) food sc hs target r1 r2 nid).outcome
        = FrameOutcome.crashed)
    ∧ ((updateFrame w h (head :: rest) food sc hs target r1 r2 nid).outcome
          = FrameOutcome.ate ↔
        (5 < fsDist head target
          ∧ hypotDist (fsNewHead head target nid).pos food < SEGMENT_SIZE * 2))
    ∧ ((updateFrame w h (head :: rest) food sc hs target r1 r2 nid).outcome
          = FrameOutcome.crashed ↔
        (5 < fsDist head target
          ∧ ¬ hypotDist (fsNewHead head target nid).pos food < SEGMENT_SIZE * 2
          ∧ (boundaryOut w h (fsNewHead head target nid).pos
              ∨ selfCollision (fsNewHead head target nid)
                  (fsNewHead head target nid :: head :: rest))))
    ∧ ¬ ((updateFrame w h (head :: rest) food sc hs target r1 r2 nid).outcome
            = FrameOutcome.ate
          ∧ (updateFrame w h (head :: rest) food sc hs target r1 r2 nid).outcome
            = FrameOutcome.crashed) := by
  simp only [updateFrame]
  split_ifs with h1 h2 h3
  · refine ⟨Or.inr (Or.inl rfl), iff_of_true rfl ⟨h1, h2⟩,
      iff_of_false (by simp) ?_, ?_⟩
    · rintro ⟨-, hn, -⟩
      exact hn h2
    · rintro ⟨-, hab⟩
      simp at hab
  · refine ⟨Or.inr (Or.inr rfl), iff_of_false (by simp) ?_,
      iff_of_true rfl ⟨h1, h2, h3⟩, ?_⟩
    · rintro ⟨-, hc⟩
      exact h2 hc
    · rintro ⟨hab, -⟩
      simp at hab
  · refine ⟨Or.inl rfl, iff_of_false (by simp) ?_,
      iff_of_false (by simp) ?_, ?_⟩
    · rintro ⟨-, hc⟩
      exact h2 hc
    · rintro ⟨-, -, hc⟩
      exact h3 hc
    · rintro ⟨hab, -⟩
      simp at hab
  · refine ⟨Or.inl rfl, iff_of_false (by simp) ?_,
      iff_of_false (by simp) ?_, ?_⟩
    · rintro ⟨hm, -⟩
      exact h1 hm
    · rintro ⟨hm, -⟩
      exact h1 hm
    · rintro ⟨hab, -⟩
      simp at hab

/-- C8 witness: a concrete playing frame resolves to one of the three
outcomes and is never both `ate` and `crashed`. -/
theorem frame_outcome_trichotomy_inst :
    ((updateFrame 800 600 [⟨0, 0, 0⟩] ⟨400, 300⟩ 0 0 ⟨3, 0⟩ 0 0 1).outcome
        = FrameOutcome.noEvent
      ∨ (updateFrame 800 600 [⟨0, 0, 0⟩] ⟨400, 300⟩ 0 0 ⟨3, 0⟩ 0 0 1).outcome
        = FrameOutcome.ate
      ∨ (updateFrame 800 600 [⟨0, 0, 0⟩] ⟨400, 300⟩ 0 0 ⟨3, 0⟩ 0 0 1).outcome
        = FrameOutcome.crashed)
    ∧ ¬ ((updateFrame 800 600 [⟨0, 0, 0⟩] ⟨400, 300⟩ 0 0 ⟨3, 0⟩ 0 0 1).outcome
            = FrameOutcome.ate
        ∧ (updateFrame 800 600 [⟨0, 0, 0⟩] ⟨400, 300⟩ 0 0 ⟨3, 0⟩ 0 0 1).outcome
            = FrameOutcome.crashed) := by
  have hthm := frame_outcome_trichotomy 800 600 ⟨0, 0, 0⟩ [] ⟨400, 300⟩
    ⟨3, 0⟩ 0 0 0 0 1
  exact ⟨hthm.1, hthm.2.2.2⟩

/-! ### Commentary gateway (`src/services/gemini.ts` and
`src/services/geminiService.ts`) -/

/-- Event tags of the Finger Snake commentary request. -/
inductive CommentaryEvent
  | start
  | eat
  | gameover
  | idle
deriving DecidableEq

/-- Context tags of the Siyu commentary request. -/
inductive SiyuContext
  | start
  | gameover
deriving DecidableEq

/-- `getGeminiCommentary` (`src/services/gemini.ts`).  `apiKey` is the
environment credential (empty string when missing, per
`process.env.API_KEY || ''`); `api` is the outcome of the remote
`generateContent` call: an exception, or a response whose optional text
may be empty.  `response.text || "..."` treats a missing or empty text as
falsy; the `catch` block returns the empty string. -/
def getGeminiCommentary (apiKey : String) (_event : CommentaryEvent)
    (_score : ℕ) (api : Except Unit (Option String)) : String :=
  if apiKey = "" then "Missing API Key!"
  else
    match api with
    | Except.ok (some t) => if t = "" then "..." else t
    | Except.ok none => "..."
    | Except.error _ => ""

/-- `generateSiyuWisdom` (`src/services/geminiService.ts`):
`response.text?.trim() || "Siyu is watching."`, with the `catch` block
returning a fixed non-blank placeholder. -/
def generateSiyuWisdom (_score : ℕ) (_ctx : SiyuContext)
    (api : Except Unit (Option String)) : String :=
  match api with
  | Except.ok (some t) => if t.trim = "" then "Siyu is watching." else t.trim
  | Except.ok none => "Siyu is watching."
  | Except.error _ => "Connection to Siyu Network unstable..."

/-- C9: evaluation at the failing input.  On a generator failure the
Finger Snake `getGeminiCommentary` returns the empty string — blank, not
the fixed non-blank placeholder the spec requires — while a missing
credential does return the fixed string `Missing API Key!`, and the Siyu
`generateSiyuWisdom` returns a fixed non-blank placeholder on failure. -/
theorem commentary_failure_blank :
    getGeminiCommentary "k" CommentaryEvent.eat 3 (Except.error ()) = ""
    ∧ ("" : String).length = 0
    ∧ getGeminiCommentary "" CommentaryEvent.start 0 (Except.ok none)
        = "Missing API Key!"
    ∧ generateSiyuWisdom 3 SiyuContext.gameover (Except.error ())
        = "Connection to Siyu Network unstable..."
    ∧ ("Connection to Siyu Network unstable..." : String) ≠ "" := by
  refine ⟨by decide, by decide, by decide, by decide, by decide⟩

/-! ### Siyu frame loop phase invariance (`GameCanvas.tsx`, `animate`;
the Siyu `App`'s `handleGameOver`) -/

/-- One full `animate` frame of the Siyu variant as far as game state is
concerned: physics runs only in `PLAYING`, and `animate` never writes the
phase (`setGameState` and `onGameOver` are never called in
`GameCanvas.tsx`). -/
noncomputable def animateFrame (w h : ℝ) (phase : SiyuPhase) (st : SiyuState)
    (tA r1 r2 : ℝ) (nid : ℤ) : SiyuPhase × SiyuState :=
  if phase = SiyuPhase.PLAYING then (phase, stepSiyu w h st tA r1 r2 nid)
  else (phase, st)

/-- Iterated frames, with per-frame oracle inputs. -/
noncomputable def animateIter (w h : ℝ) (tA r1 r2 : ℕ → ℝ) (nid : ℕ → ℤ) :
    ℕ → SiyuPhase × SiyuState → SiyuPhase × SiyuState
  | 0, ps => ps
  | n + 1, ps =>
    animateIter w h tA r1 r2 nid n
      (animateFrame w h ps.1 ps.2 (tA n) (r1 n) (r2 n) (nid n))

/-- `handleGameOver` in the Siyu `App`: the only writer of `GAME_OVER`,
an external UI callback (wired to the End Game button), which also raises
the session high score. -/
def handleGameOver (score highScore : ℕ) : SiyuPhase × ℕ :=
  (SiyuPhase.GAME_OVER, Nat.max highScore score)

/-- C10: the Siyu per-frame update never changes the phase: any number of
frames starting from `PLAYING` stays in `PLAYING` (the loop performs no
self-collision or boundary-crash detection); a head leaving the field is
wrapped to the opposite edge by the coordinate updates; and `GAME_OVER`
is produced only by the external `handleGameOver` callback, which the
loop never invokes. -/
theorem siyu_loop_phase_invariant (w h : ℝ) (phase : SiyuPhase)
    (st : SiyuState) (tA r1 r2 : ℝ) (nid : ℤ) (fa fb fc : ℕ → ℝ)
    (fd : ℕ → ℤ) (p : Point) (sc hs : ℕ) :
    (animateFrame w h phase st tA r1 r2 nid).1 = phase
    ∧ (∀ n st0,
        (animateIter w h fa fb fc fd n (SiyuPhase.PLAYING, st0)).1
          = SiyuPhase.PLAYING)
    ∧ (p.x < 0 → (wrapPoint w h p).x = w)
    ∧ (¬ p.x < 0 → w < p.x → (wrapPoint w h p).x = 0)
    ∧ (p.y < 0 → (wrapPoint w h p).y = h)
    ∧ (¬ p.y < 0 → h < p.y → (wrapPoint w h p).y = 0)
    ∧ (0 ≤ p.x → p.x ≤ w → 0 ≤ p.y → p.y ≤ h → wrapPoint w h p = p)
    ∧ handleGameOver sc hs = (SiyuPhase.GAME_OVER, Nat.max hs sc) := by
  refine ⟨?_, ?_, ?_, ?_, ?_, ?_, wrapPoint_id w h p, rfl⟩
  · rw [animateFrame]
    split_ifs <;> rfl
  · intro n
    induction n with
    | zero =>
      intro st0
      rfl
    | succ m ih =>
      intro st0
      simp only [animateIter, animateFrame, if_pos]
      exact ih _
  · intro hx
    simp only [wrapPoint, if_pos hx, if_neg (lt_irrefl w)]
  · intro hx1 hx2
    simp only [wrapPoint, if_neg hx1, if_pos hx2]
  · intro hy
    simp only [wrapPoint, if_pos hy, if_neg (lt_irrefl h)]
  · intro hy1 hy2
    simp only [wrapPoint, if_neg hy1, if_pos hy2]

/-- C10 witness: three playing frames from a concrete state stay in
`PLAYING`; a paused frame stays `PAUSED`; a head 5 px past the left edge
wraps to `x = 800`. -/
theorem siyu_loop_phase_inst :
    (animateIter 800 600 (fun _ => 0) (fun _ => 0) (fun _ => 0) (fun _ => 1) 3
      (SiyuPhase.PLAYING, ⟨[⟨100, 100, 0⟩], 0, 0, ⟨400, 300⟩⟩)).1
      = SiyuPhase.PLAYING
    ∧ (animateFrame 800 600 SiyuPhase.PAUSED
        ⟨[⟨100, 100, 0⟩], 0, 0, ⟨400, 300⟩⟩ 0 0 0 1).1 = SiyuPhase.PAUSED
    ∧ (wrapPoint 800 600 ⟨-5, 300⟩).x = 800 := by
  have hthm := siyu_loop_phase_invariant 800 600 SiyuPhase.PAUSED
    ⟨[⟨100, 100, 0⟩], 0, 0, ⟨400, 300⟩⟩ 0 0 0 1
    (fun _ => 0) (fun _ => 0) (fun _ => 0) (fun _ => 1) ⟨-5, 300⟩ 0 0
  refine ⟨hthm.2.1 3 _, hthm.1, ?_⟩
  exact hthm.2.2.1 (by norm_num)

end FingerSnake
